import Mathlib

/-!
Verification of `python/sglang/srt/model_executor/forward_batch_info.py`:
the `ForwardMode` enumeration and the `InputMetadata.from_schedule_batch`
forward-batch assembler, embedded shallowly over lists.

Tensors are modelled as lists (`torch.Tensor` of int64 as `List Int` where
signed arithmetic matters, per-request length bookkeeping as `List Nat`).
Python exceptions raised by list indexing and by `np.concatenate` on an
empty argument list are modelled with `Except PyError`.
-/

namespace ForwardBatchInfo

/-- Source `class ForwardMode(IntEnum)`: the four tags, with `auto()` values 1..4. -/
inductive ForwardMode where
  | PREFILL
  | EXTEND
  | DECODE
  | MIXED
deriving DecidableEq, Repr

/-- The `IntEnum` integer value of each tag (`auto()` assigns 1,2,3,4). -/
def ForwardMode.value : ForwardMode → Nat
  | .PREFILL => 1
  | .EXTEND => 2
  | .DECODE => 3
  | .MIXED => 4

/-- Construction `ForwardMode(n)`: `IntEnum` construction from an integer value; raises
`ValueError` (here: `none`) when `n` is not the value of one of the four tags. -/
def ForwardMode.ofValue : Nat → Option ForwardMode
  | 1 => some .PREFILL
  | 2 => some .EXTEND
  | 3 => some .DECODE
  | 4 => some .MIXED
  | _ => none

/-- Source `def is_prefill(self): return self == ForwardMode.PREFILL` -/
def ForwardMode.is_prefill (m : ForwardMode) : Bool :=
  m == ForwardMode.PREFILL

/-- Source `def is_extend(self): return self == ForwardMode.EXTEND or self == ForwardMode.MIXED` -/
def ForwardMode.is_extend (m : ForwardMode) : Bool :=
  m == ForwardMode.EXTEND || m == ForwardMode.MIXED

/-- Source `def is_decode(self): return self == ForwardMode.DECODE` -/
def ForwardMode.is_decode (m : ForwardMode) : Bool :=
  m == ForwardMode.DECODE

/-- Source `def is_mixed(self): return self == ForwardMode.MIXED` -/
def ForwardMode.is_mixed (m : ForwardMode) : Bool :=
  m == ForwardMode.MIXED

/-- The per-request object (`Req` of `schedule_batch.py`) as read by the
assembler: it accesses `req.fill_ids`, `req.image_inputs` and `req.lora_path`.
Image payloads and LoRA paths are opaque handles here. -/
structure Req where
  fill_ids : List Nat
  image_inputs : Option Nat
  lora_path : Option Nat
deriving DecidableEq, Repr

/-- The scheduler's batch descriptor, restricted to the fields
`InputMetadata.from_schedule_batch` reads. -/
structure ScheduleBatch where
  forward_mode : ForwardMode
  reqs : List Req
  input_ids : List Nat
  req_pool_indices : List Nat
  seq_lens : List Nat
  out_cache_loc : List Nat
  return_logprob : Bool
  top_logprobs_nums : Option (List Nat)
  prefix_lens_cpu : List Nat
  extend_lens_cpu : List Nat
  extend_logprob_start_lens_cpu : List Nat
deriving DecidableEq, Repr

/-- Modelled from the spec: `batch.batch_size()` lives in `schedule_batch.py`,
outside the given source; the spec defines `batch_size` as the count of
requests in this pass. -/
def ScheduleBatch.batch_size (batch : ScheduleBatch) : Nat :=
  batch.reqs.length

/-- Source `@dataclass class InputMetadata`: the per-pass metadata record. Fields
that default to `None` in the dataclass are `Option` with default `none`.
The three backend handles are opaque references, never set by the assembler. -/
structure InputMetadata where
  forward_mode : ForwardMode
  batch_size : Nat
  input_ids : List Nat
  req_pool_indices : List Nat
  seq_lens : List Nat
  out_cache_loc : List Nat
  positions : Option (List Int) := none
  extend_seq_lens : Option (List Nat) := none
  extend_prefix_lens : Option (List Nat) := none
  extend_start_loc : Option (List Nat) := none
  return_logprob : Bool := false
  top_logprobs_nums : Option (List Nat) := none
  extend_seq_lens_cpu : Option (List Nat) := none
  extend_logprob_start_lens_cpu : Option (List Nat) := none
  image_inputs : Option (List (Option Nat)) := none
  lora_paths : Option (List (Option Nat)) := none
  req_to_token_pool : Option Unit := none
  token_to_kv_pool : Option Unit := none
  attn_backend : Option Unit := none
deriving DecidableEq, Repr

/-- Python exceptions the assembler can raise: `IndexError` from
`batch.prefix_lens_cpu[i]`, `ValueError` from `np.concatenate` on an empty
list of arrays. -/
inductive PyError where
  | indexError
  | valueError
deriving DecidableEq, Repr

/-- Python list indexing `l[i]` for a non-negative index: raises `IndexError`
when `i` is out of range. -/
def pyIndex (l : List Nat) (i : Nat) : Except PyError Nat :=
  match l.get? i with
  | some v => Except.ok v
  | none => Except.error PyError.indexError

/-- Embeds `np.arange(a, b)` over non-negative bounds, cast to int64: the ascending
range `[a, b)`, empty when `b ≤ a`. -/
def npArange (a b : Nat) : List Int :=
  (List.range' a (b - a)).map Int.ofNat

/-- The list comprehension
`[np.arange(batch.prefix_lens_cpu[i], len(req.fill_ids)) for i, req in enumerate(batch.reqs)]`,
with `i` starting at the given index: evaluates left to right, propagating the
first `IndexError`. -/
def arangeRows (plens : List Nat) (reqs : List Req) (i : Nat) :
    Except PyError (List (List Int)) :=
  match reqs with
  | [] => Except.ok []
  | req :: rest =>
    match pyIndex plens i with
    | Except.error e => Except.error e
    | Except.ok p =>
      match arangeRows plens rest (i + 1) with
      | Except.error e => Except.error e
      | Except.ok rows => Except.ok (npArange p req.fill_ids.length :: rows)

/-- Embeds `np.concatenate(rows, axis=0)`: raises `ValueError` when given no arrays,
otherwise flattens. -/
def npConcatenate (rows : List (List Int)) : Except PyError (List Int) :=
  match rows with
  | [] => Except.error PyError.valueError
  | _ :: _ => Except.ok rows.flatten

/-- Embeds `torch.cumsum(l, dim=0)`: inclusive running sums. -/
def torchCumsum (l : List Nat) : List Nat :=
  (l.scanl (· + ·) 0).tail

/-- Embeds `ret.extend_start_loc = torch.zeros_like(ret.extend_seq_lens)` followed by
`ret.extend_start_loc[1:] = torch.cumsum(ret.extend_seq_lens[:-1], dim=0)`:
the exclusive prefix sum, of the same length as `lens`. -/
def extendStartLoc (lens : List Nat) : List Nat :=
  match lens with
  | [] => []
  | _ :: _ => 0 :: torchCumsum lens.dropLast

/-- Source `InputMetadata.from_schedule_batch(batch)`: builds the record from the
descriptor, then fills `positions` (and, on the non-decode branch, the
extend-only and extend-logprob fields). -/
def InputMetadata.from_schedule_batch (batch : ScheduleBatch) :
    Except PyError InputMetadata :=
  let ret : InputMetadata :=
    { forward_mode := batch.forward_mode
      batch_size := batch.batch_size
      input_ids := batch.input_ids
      req_pool_indices := batch.req_pool_indices
      seq_lens := batch.seq_lens
      out_cache_loc := batch.out_cache_loc
      return_logprob := batch.return_logprob
      top_logprobs_nums := batch.top_logprobs_nums
      lora_paths := some (batch.reqs.map Req.lora_path) }
  if ret.forward_mode.is_decode then
    Except.ok { ret with
      positions := some (ret.seq_lens.map (fun n : Nat => (n : Int) - 1)) }
  else
    match arangeRows batch.prefix_lens_cpu batch.reqs 0 with
    | Except.error e => Except.error e
    | Except.ok rows =>
      match npConcatenate rows with
      | Except.error e => Except.error e
      | Except.ok pos =>
        Except.ok { ret with
          positions := some pos
          image_inputs := some (batch.reqs.map Req.image_inputs)
          extend_seq_lens := some batch.extend_lens_cpu
          extend_prefix_lens := some batch.prefix_lens_cpu
          extend_start_loc := some (extendStartLoc batch.extend_lens_cpu)
          extend_seq_lens_cpu := some batch.extend_lens_cpu
          extend_logprob_start_lens_cpu := some batch.extend_logprob_start_lens_cpu }

/-- The same assembler with the descriptor threaded explicitly as state, one
`let` per Python statement: each statement receives the descriptor left by the
previous one and passes it on (none of them assigns to `batch`). Returned with
the result so that non-mutation of the caller's descriptor is a provable
statement. -/
def from_schedule_batch_run (batch0 : ScheduleBatch) :
    Except PyError InputMetadata × ScheduleBatch :=
  let batch1 := batch0
  let ret : InputMetadata :=
    { forward_mode := batch1.forward_mode
      batch_size := batch1.batch_size
      input_ids := batch1.input_ids
      req_pool_indices := batch1.req_pool_indices
      seq_lens := batch1.seq_lens
      out_cache_loc := batch1.out_cache_loc
      return_logprob := batch1.return_logprob
      top_logprobs_nums := batch1.top_logprobs_nums
      lora_paths := some (batch1.reqs.map Req.lora_path) }
  if ret.forward_mode.is_decode then
    let batch2 := batch1
    (Except.ok { ret with
      positions := some (ret.seq_lens.map (fun n : Nat => (n : Int) - 1)) }, batch2)
  else
    let batch2 := batch1
    match arangeRows batch2.prefix_lens_cpu batch2.reqs 0 with
    | Except.error e => (Except.error e, batch2)
    | Except.ok rows =>
      match npConcatenate rows with
      | Except.error e => (Except.error e, batch2)
      | Except.ok pos =>
        let batch3 := batch2
        (Except.ok { ret with
          positions := some pos
          image_inputs := some (batch3.reqs.map Req.image_inputs)
          extend_seq_lens := some batch3.extend_lens_cpu
          extend_prefix_lens := some batch3.prefix_lens_cpu
          extend_start_loc := some (extendStartLoc batch3.extend_lens_cpu)
          extend_seq_lens_cpu := some batch3.extend_lens_cpu
          extend_logprob_start_lens_cpu := some batch3.extend_logprob_start_lens_cpu },
         batch3)

end ForwardBatchInfo

namespace ForwardBatchInfo

/-- The per-request position ranges of the non-decode branch, in request
order: request `i` contributes `np.arange(prefix_lens_cpu[i], len(fill_ids))`. -/
def rangesOf (batch : ScheduleBatch) : List (List Int) :=
  List.zipWith (fun p r => npArange p r.fill_ids.length) batch.prefix_lens_cpu batch.reqs

lemma npArange_length (a b : Nat) : (npArange a b).length = b - a := by
  simp [npArange]

lemma npConcatenate_ok {rows : List (List Int)} (h : rows ≠ []) :
    npConcatenate rows = Except.ok rows.flatten := by
  cases rows with
  | nil => exact absurd rfl h
  | cons x t => rfl

lemma scanl_zero_eq (l : List Nat) : l.scanl (· + ·) 0 = 0 :: torchCumsum l := by
  cases l with
  | nil => rfl
  | cons x t => rfl

lemma scanl_add_shift (l : List Nat) :
    ∀ a b : Nat, l.scanl (· + ·) (a + b) = (l.scanl (· + ·) b).map (a + ·) := by
  induction l with
  | nil => intro a b; simp [List.scanl_nil]
  | cons x t ih =>
    intro a b
    rw [List.scanl_cons, List.scanl_cons]
    have : a + b + x = a + (b + x) := by omega
    simp [this, ih a (b + x)]

lemma torchCumsum_cons (x : Nat) (l : List Nat) :
    torchCumsum (x :: l) = x :: (torchCumsum l).map (x + ·) := by
  have h1 : torchCumsum (x :: l) = l.scanl (· + ·) (0 + x) := by
    simp [torchCumsum, List.scanl_cons]
  have h2 : (0 : Nat) + x = x + 0 := by omega
  rw [h1, h2, scanl_add_shift l x 0, scanl_zero_eq]
  simp

lemma torchCumsum_length (l : List Nat) : (torchCumsum l).length = l.length := by
  simp [torchCumsum, List.length_tail, List.length_scanl]

lemma torchCumsum_getD (l : List Nat) :
    ∀ i : Nat, i < l.length → (torchCumsum l).getD i 0 = (l.take (i + 1)).sum := by
  induction l with
  | nil => intro i h; simp at h
  | cons x t ih =>
    intro i h
    rw [torchCumsum_cons]
    cases i with
    | zero => simp
    | succ j =>
      have hj : j < t.length := by simpa using h
      have hj2 : j < ((torchCumsum t).map (x + ·)).length := by
        simpa [torchCumsum_length] using hj
      have hj3 : j < (torchCumsum t).length := by simpa [torchCumsum_length] using hj
      rw [List.getD_cons_succ, List.getD_eq_getElem _ _ hj2, List.getElem_map,
        ← List.getD_eq_getElem _ 0 hj3, ih j hj]
      simp

lemma extendStartLoc_length (lens : List Nat) :
    (extendStartLoc lens).length = lens.length := by
  cases lens with
  | nil => rfl
  | cons x t =>
    simp [extendStartLoc, torchCumsum_length]

lemma extendStartLoc_getD (lens : List Nat) :
    ∀ i : Nat, i < lens.length → (extendStartLoc lens).getD i 0 = (lens.take i).sum := by
  cases lens with
  | nil => intro i h; simp at h
  | cons x t =>
    intro i h
    cases i with
    | zero => simp [extendStartLoc]
    | succ j =>
      have hj : j < (x :: t).dropLast.length := by
        simp only [List.length_dropLast, List.length_cons] at *
        omega
      have hstep : (extendStartLoc (x :: t)).getD (j + 1) 0
          = (torchCumsum ((x :: t).dropLast)).getD j 0 := by
        simp [extendStartLoc]
      rw [hstep, torchCumsum_getD _ j hj, List.dropLast_eq_take, List.take_take]
      have hmin : min (j + 1) ((x :: t).length - 1) = j + 1 := by
        simp only [List.length_cons] at *
        omega
      rw [hmin]

lemma arangeRows_ok :
    ∀ (reqs : List Req) (plens : List Nat) (i : Nat), i + reqs.length ≤ plens.length →
      arangeRows plens reqs i =
        Except.ok (List.zipWith (fun p r => npArange p r.fill_ids.length) (plens.drop i) reqs) := by
  intro reqs
  induction reqs with
  | nil => intro plens i h; simp [arangeRows]
  | cons r rest ih =>
    intro plens i h
    have hi : i < plens.length := by simp only [List.length_cons] at h; omega
    have hidx : pyIndex plens i = Except.ok (plens.get ⟨i, hi⟩) := by
      simp [pyIndex, List.get?_eq_getElem?, List.getElem?_eq_getElem hi]
    have hrec := ih plens (i + 1) (by simp only [List.length_cons] at h; omega)
    have hdrop : plens.drop i = plens.get ⟨i, hi⟩ :: plens.drop (i + 1) :=
      List.drop_eq_getElem_cons hi
    simp only [arangeRows, hidx, hrec, hdrop, List.zipWith_cons_cons]

lemma arangeRows_err :
    ∀ (reqs : List Req) (plens : List Nat) (i : Nat),
      plens.length < i + reqs.length → reqs ≠ [] →
      arangeRows plens reqs i = Except.error PyError.indexError := by
  intro reqs
  induction reqs with
  | nil => intro plens i h hne; exact absurd rfl hne
  | cons r rest ih =>
    intro plens i h _
    by_cases hi : i < plens.length
    · have hrest : rest ≠ [] := by
        intro hr
        subst hr
        simp only [List.length_cons, List.length_nil] at h
        omega
      have hidx : pyIndex plens i = Except.ok (plens.get ⟨i, hi⟩) := by
        simp [pyIndex, List.get?_eq_getElem?, List.getElem?_eq_getElem hi]
      have hrec := ih plens (i + 1) (by simp only [List.length_cons] at h; omega) hrest
      simp only [arangeRows, hidx, hrec]
    · have hidx : pyIndex plens i = Except.error PyError.indexError := by
        have hnone : plens[i]? = none := by
          rw [List.getElem?_eq_none]
          omega
        simp [pyIndex, List.get?_eq_getElem?, hnone]
      simp only [arangeRows, hidx]

end ForwardBatchInfo

namespace ForwardBatchInfo

lemma fsb_decode_ok (b : ScheduleBatch) (hmode : b.forward_mode = ForwardMode.DECODE) :
    InputMetadata.from_schedule_batch b = Except.ok
      { forward_mode := b.forward_mode
        batch_size := b.batch_size
        input_ids := b.input_ids
        req_pool_indices := b.req_pool_indices
        seq_lens := b.seq_lens
        out_cache_loc := b.out_cache_loc
        positions := some (b.seq_lens.map (fun n : Nat => (n : Int) - 1))
        return_logprob := b.return_logprob
        top_logprobs_nums := b.top_logprobs_nums
        lora_paths := some (b.reqs.map Req.lora_path) } := by
  simp [InputMetadata.from_schedule_batch, ForwardMode.is_decode, hmode]

lemma fsb_extend_ok (b : ScheduleBatch) (hmode : b.forward_mode.is_decode = false)
    (hne : b.reqs ≠ []) (hlen : b.reqs.length ≤ b.prefix_lens_cpu.length) :
    InputMetadata.from_schedule_batch b = Except.ok
      { forward_mode := b.forward_mode
        batch_size := b.batch_size
        input_ids := b.input_ids
        req_pool_indices := b.req_pool_indices
        seq_lens := b.seq_lens
        out_cache_loc := b.out_cache_loc
        positions := some (rangesOf b).flatten
        extend_seq_lens := some b.extend_lens_cpu
        extend_prefix_lens := some b.prefix_lens_cpu
        extend_start_loc := some (extendStartLoc b.extend_lens_cpu)
        return_logprob := b.return_logprob
        top_logprobs_nums := b.top_logprobs_nums
        extend_seq_lens_cpu := some b.extend_lens_cpu
        extend_logprob_start_lens_cpu := some b.extend_logprob_start_lens_cpu
        image_inputs := some (b.reqs.map Req.image_inputs)
        lora_paths := some (b.reqs.map Req.lora_path) } := by
  have hrows := arangeRows_ok b.reqs b.prefix_lens_cpu 0 (by omega)
  rw [List.drop_zero] at hrows
  have hrange : List.zipWith (fun p r => npArange p r.fill_ids.length)
      b.prefix_lens_cpu b.reqs = rangesOf b := rfl
  rw [hrange] at hrows
  have hnil : rangesOf b ≠ [] := by
    have hpos : 0 < (rangesOf b).length := by
      have h1 : 0 < b.reqs.length := List.length_pos.mpr hne
      simp only [rangesOf, List.length_zipWith]
      omega
    exact List.ne_nil_of_length_pos hpos
  have hcat := npConcatenate_ok hnil
  simp [InputMetadata.from_schedule_batch, hmode, hrows, hcat]

lemma rangesOf_length (b : ScheduleBatch)
    (hplen : b.reqs.length ≤ b.prefix_lens_cpu.length) :
    (rangesOf b).length = b.reqs.length := by
  simp only [rangesOf, List.length_zipWith]
  omega

lemma rangesOf_get (b : ScheduleBatch) (i : Nat) (h3 : i < (rangesOf b).length)
    (h2 : i < b.reqs.length) :
    (rangesOf b).get ⟨i, h3⟩ =
      npArange (b.prefix_lens_cpu.getD i 0) ((b.reqs.get ⟨i, h2⟩).fill_ids.length) := by
  have h1 : i < b.prefix_lens_cpu.length := by
    simp only [rangesOf, List.length_zipWith] at h3
    omega
  simp only [rangesOf, List.get_eq_getElem, List.getElem_zipWith,
    List.getD_eq_getElem _ _ h1]

lemma flatten_slice (L : List (List Int)) (i : Nat) (h : i < L.length) :
    (L.flatten.drop (((L.map List.length).take i).sum)).take (L.get ⟨i, h⟩).length =
      L.get ⟨i, h⟩ := by
  have hd : ((L.map List.length).take i) = (List.take i (L.map List.length)) := rfl
  rw [hd, List.drop_sum_flatten, List.drop_eq_getElem_cons h, List.flatten_cons,
    List.get_eq_getElem, List.take_left]

lemma rangesOf_map_length (b : ScheduleBatch)
    (hplen : b.prefix_lens_cpu.length = b.reqs.length)
    (helen : b.extend_lens_cpu.length = b.reqs.length)
    (hcoh : ∀ i, (hi : i < b.reqs.length) →
      b.prefix_lens_cpu.getD i 0 ≤ (b.reqs.get ⟨i, hi⟩).fill_ids.length ∧
      b.extend_lens_cpu.getD i 0 =
        (b.reqs.get ⟨i, hi⟩).fill_ids.length - b.prefix_lens_cpu.getD i 0) :
    (rangesOf b).map List.length = b.extend_lens_cpu := by
  have hrl : (rangesOf b).length = b.reqs.length := rangesOf_length b (by omega)
  apply List.ext_getElem
  · simp [hrl, helen]
  · intro i h1 h2
    have hi : i < b.reqs.length := by simpa [hrl] using h1
    have h3 : i < (rangesOf b).length := by omega
    have hget : (rangesOf b)[i] = (rangesOf b).get ⟨i, h3⟩ := rfl
    rw [List.getElem_map, hget, rangesOf_get b i h3 hi, npArange_length,
      ← List.getD_eq_getElem b.extend_lens_cpu 0 h2]
    exact ((hcoh i hi).2).symm

end ForwardBatchInfo

namespace ForwardBatchInfo

/-- The spec's concrete extend scenario: 3 requests, prior cached prefixes
`[0,4,2]`, fill lengths `[5,4,6]`, so new-token counts `[5,0,4]` and 9 tokens
in flight. -/
def wExtendBatch : ScheduleBatch :=
  { forward_mode := ForwardMode.EXTEND
    reqs :=
      [ { fill_ids := [10, 11, 12, 13, 14], image_inputs := none, lora_path := none }
      , { fill_ids := [20, 21, 22, 23], image_inputs := none, lora_path := none }
      , { fill_ids := [30, 31, 32, 33, 34, 35], image_inputs := none, lora_path := none } ]
    input_ids := [10, 11, 12, 13, 14, 32, 33, 34, 35]
    req_pool_indices := [0, 1, 2]
    seq_lens := [5, 4, 6]
    out_cache_loc := [0, 1, 2, 3, 4, 5, 6, 7, 8]
    return_logprob := false
    top_logprobs_nums := none
    prefix_lens_cpu := [0, 4, 2]
    extend_lens_cpu := [5, 0, 4]
    extend_logprob_start_lens_cpu := [0, 0, 0] }

/-- The spec's concrete decode scenario: 2 requests with total sequence
lengths `[10, 3]`, logprobs requested. -/
def wDecodeBatch : ScheduleBatch :=
  { forward_mode := ForwardMode.DECODE
    reqs :=
      [ { fill_ids := [1], image_inputs := none, lora_path := none }
      , { fill_ids := [2], image_inputs := none, lora_path := some 7 } ]
    input_ids := [41, 42]
    req_pool_indices := [0, 1]
    seq_lens := [10, 3]
    out_cache_loc := [9, 10]
    return_logprob := true
    top_logprobs_nums := some [1, 2]
    prefix_lens_cpu := []
    extend_lens_cpu := []
    extend_logprob_start_lens_cpu := [] }

/-- C1: for every extend-bearing batch (mode EXTEND, MIXED, or PREFILL) whose
descriptor is coherent (`prefix_len[i] ≤ fill_len[i]` and
`extend_lens_cpu[i] = fill_len[i] - prefix_len[i]`), the slice of the
assembled positions starting at `extend_start_loc[i]` of length
`extend_seq_lens[i]` is the ascending range `[prefix_len[i], fill_len[i])`,
and the full positions array is the concatenation of these per-request
ranges in request order. -/
theorem extend_positions_slice (b : ScheduleBatch)
    (hmode : b.forward_mode = ForwardMode.EXTEND ∨ b.forward_mode = ForwardMode.MIXED ∨
      b.forward_mode = ForwardMode.PREFILL)
    (hne : b.reqs ≠ [])
    (hplen : b.prefix_lens_cpu.length = b.reqs.length)
    (helen : b.extend_lens_cpu.length = b.reqs.length)
    (hcoh : ∀ i, (hi : i < b.reqs.length) →
      b.prefix_lens_cpu.getD i 0 ≤ (b.reqs.get ⟨i, hi⟩).fill_ids.length ∧
      b.extend_lens_cpu.getD i 0 =
        (b.reqs.get ⟨i, hi⟩).fill_ids.length - b.prefix_lens_cpu.getD i 0) :
    ∃ r pos sl el,
      InputMetadata.from_schedule_batch b = Except.ok r ∧
      r.positions = some pos ∧ r.extend_start_loc = some sl ∧ r.extend_seq_lens = some el ∧
      pos = (rangesOf b).flatten ∧
      ∀ i, (hi : i < b.reqs.length) →
        (pos.drop (sl.getD i 0)).take (el.getD i 0) =
          npArange (b.prefix_lens_cpu.getD i 0) ((b.reqs.get ⟨i, hi⟩).fill_ids.length) := by
  have hdec : b.forward_mode.is_decode = false := by
    rcases hmode with h | h | h <;> rw [h] <;> rfl
  refine ⟨_, _, _, _, fsb_extend_ok b hdec hne (by omega), rfl, rfl, rfl, rfl, ?_⟩
  intro i hi
  have hml := rangesOf_map_length b hplen helen hcoh
  have hrl : (rangesOf b).length = b.reqs.length := rangesOf_length b (by omega)
  have hi3 : i < (rangesOf b).length := by omega
  have hsl : (extendStartLoc b.extend_lens_cpu).getD i 0 = (b.extend_lens_cpu.take i).sum :=
    extendStartLoc_getD b.extend_lens_cpu i (by omega)
  have hel : b.extend_lens_cpu.getD i 0 = ((rangesOf b).get ⟨i, hi3⟩).length := by
    have h2 : i < b.extend_lens_cpu.length := by omega
    have h4 : i < ((rangesOf b).map List.length).length := by
      simp only [List.length_map]; omega
    conv_lhs => rw [← hml]
    rw [List.getD_eq_getElem _ 0 h4, List.getElem_map]
    rfl
  rw [hsl, hel, ← hml]
  have hslice := flatten_slice (rangesOf b) i hi3
  rw [hslice, rangesOf_get b i hi3 hi]

/-- C1 witness: the spec's 3-request extend scenario satisfies every
hypothesis and the slice property. -/
theorem extend_positions_slice_witness :
    ∃ r pos sl el,
      InputMetadata.from_schedule_batch wExtendBatch = Except.ok r ∧
      r.positions = some pos ∧ r.extend_start_loc = some sl ∧ r.extend_seq_lens = some el ∧
      pos = (rangesOf wExtendBatch).flatten ∧
      ∀ i, (hi : i < wExtendBatch.reqs.length) →
        (pos.drop (sl.getD i 0)).take (el.getD i 0) =
          npArange (wExtendBatch.prefix_lens_cpu.getD i 0)
            ((wExtendBatch.reqs.get ⟨i, hi⟩).fill_ids.length) :=
  extend_positions_slice wExtendBatch (Or.inl rfl) (by decide) (by decide) (by decide)
    (by decide)

end ForwardBatchInfo

namespace ForwardBatchInfo

/-- C2: for every extend-bearing batch, the assembled `extend_start_loc` is
the exclusive prefix sum of `extend_seq_lens`: entry 0 is 0 and entry `i`
equals entry `i-1` plus `extend_seq_lens[i-1]`, with no special-casing of
zero-length requests. -/
theorem extend_start_loc_excl_prefix_sum (b : ScheduleBatch)
    (hmode : b.forward_mode = ForwardMode.EXTEND ∨ b.forward_mode = ForwardMode.MIXED ∨
      b.forward_mode = ForwardMode.PREFILL)
    (hne : b.reqs ≠ [])
    (hplen : b.reqs.length ≤ b.prefix_lens_cpu.length) :
    ∃ r sl,
      InputMetadata.from_schedule_batch b = Except.ok r ∧
      r.extend_start_loc = some sl ∧ r.extend_seq_lens = some b.extend_lens_cpu ∧
      sl.length = b.extend_lens_cpu.length ∧
      (0 < sl.length → sl.getD 0 0 = 0) ∧
      ∀ i, 1 ≤ i → i < sl.length →
        sl.getD i 0 = sl.getD (i - 1) 0 + b.extend_lens_cpu.getD (i - 1) 0 := by
  have hdec : b.forward_mode.is_decode = false := by
    rcases hmode with h | h | h <;> rw [h] <;> rfl
  refine ⟨_, _, fsb_extend_ok b hdec hne hplen, rfl, rfl,
    extendStartLoc_length b.extend_lens_cpu, ?_, ?_⟩
  · intro h0
    rw [extendStartLoc_length] at h0
    rw [extendStartLoc_getD b.extend_lens_cpu 0 h0]
    simp
  · intro i h1 h2
    rw [extendStartLoc_length] at h2
    obtain ⟨j, rfl⟩ : ∃ j, i = j + 1 := ⟨i - 1, by omega⟩
    have hj : j < b.extend_lens_cpu.length := by omega
    rw [extendStartLoc_getD b.extend_lens_cpu (j + 1) h2]
    have hj1 : j + 1 - 1 = j := by omega
    rw [hj1, extendStartLoc_getD b.extend_lens_cpu j (by omega)]
    rw [List.sum_take_succ b.extend_lens_cpu j hj, List.getD_eq_getElem _ 0 hj]

/-- C2 witness: the scenario with `extend_seq_lens = [5,0,4]` (a zero-length
request in the middle) has `extend_start_loc` satisfying the exclusive
prefix-sum recurrence. -/
theorem extend_start_loc_excl_prefix_sum_witness :
    ∃ r sl,
      InputMetadata.from_schedule_batch wExtendBatch = Except.ok r ∧
      r.extend_start_loc = some sl ∧ r.extend_seq_lens = some wExtendBatch.extend_lens_cpu ∧
      sl.length = wExtendBatch.extend_lens_cpu.length ∧
      (0 < sl.length → sl.getD 0 0 = 0) ∧
      ∀ i, 1 ≤ i → i < sl.length →
        sl.getD i 0 = sl.getD (i - 1) 0 + wExtendBatch.extend_lens_cpu.getD (i - 1) 0 :=
  extend_start_loc_excl_prefix_sum wExtendBatch (Or.inl rfl) (by decide) (by decide)

/-- C3: for every decode-mode batch, the assembled positions hold one entry
per request, `positions[i] = seq_lens[i] - 1`, and no extend-only field of
the returned record is populated. -/
theorem decode_positions (b : ScheduleBatch)
    (hmode : b.forward_mode = ForwardMode.DECODE)
    (hlen : b.seq_lens.length = b.reqs.length) :
    ∃ r pos,
      InputMetadata.from_schedule_batch b = Except.ok r ∧
      r.positions = some pos ∧ pos.length = b.batch_size ∧
      (∀ i, i < pos.length → pos.getD i 0 = (b.seq_lens.getD i 0 : Int) - 1) ∧
      r.extend_seq_lens = none ∧ r.extend_prefix_lens = none ∧
      r.extend_start_loc = none := by
  refine ⟨_, _, fsb_decode_ok b hmode, rfl, ?_, ?_, rfl, rfl, rfl⟩
  · rw [List.length_map, hlen]
    rfl
  · intro i hi
    rw [List.length_map] at hi
    have hm : i < (b.seq_lens.map (fun n : Nat => (n : Int) - 1)).length := by
      rw [List.length_map]; omega
    rw [List.getD_eq_getElem _ 0 hm, List.getElem_map,
      List.getD_eq_getElem _ 0 hi]

/-- C3 witness: the spec's decode scenario `seq_lens = [10,3]` yields
`positions = [9,2]` and unset extend fields. -/
theorem decode_positions_witness :
    ∃ r pos,
      InputMetadata.from_schedule_batch wDecodeBatch = Except.ok r ∧
      r.positions = some pos ∧ pos.length = wDecodeBatch.batch_size ∧
      (∀ i, i < pos.length → pos.getD i 0 = (wDecodeBatch.seq_lens.getD i 0 : Int) - 1) ∧
      r.extend_seq_lens = none ∧ r.extend_prefix_lens = none ∧
      r.extend_start_loc = none :=
  decode_positions wDecodeBatch rfl (by decide)

/-- C4: for every extend-bearing batch satisfying the scheduler contract
(coherent prefix/fill/extend lengths and `input_ids` holding exactly the new
tokens), the record is length-consistent:
`sum(extend_seq_lens) = len(positions) = len(input_ids)`. -/
theorem extend_length_consistency (b : ScheduleBatch)
    (hmode : b.forward_mode = ForwardMode.EXTEND ∨ b.forward_mode = ForwardMode.MIXED ∨
      b.forward_mode = ForwardMode.PREFILL)
    (hne : b.reqs ≠ [])
    (hplen : b.prefix_lens_cpu.length = b.reqs.length)
    (helen : b.extend_lens_cpu.length = b.reqs.length)
    (hcoh : ∀ i, (hi : i < b.reqs.length) →
      b.prefix_lens_cpu.getD i 0 ≤ (b.reqs.get ⟨i, hi⟩).fill_ids.length ∧
      b.extend_lens_cpu.getD i 0 =
        (b.reqs.get ⟨i, hi⟩).fill_ids.length - b.prefix_lens_cpu.getD i 0)
    (hinput : b.input_ids.length = b.extend_lens_cpu.sum) :
    ∃ r pos el,
      InputMetadata.from_schedule_batch b = Except.ok r ∧
      r.positions = some pos ∧ r.extend_seq_lens = some el ∧
      el.sum = pos.length ∧ pos.length = b.input_ids.length := by
  have hdec : b.forward_mode.is_decode = false := by
    rcases hmode with h | h | h <;> rw [h] <;> rfl
  refine ⟨_, _, _, fsb_extend_ok b hdec hne (by omega), rfl, rfl, ?_, ?_⟩
  · rw [List.length_flatten, rangesOf_map_length b hplen helen hcoh]
  · rw [List.length_flatten, rangesOf_map_length b hplen helen hcoh, hinput]

/-- C4 witness: the 3-request extend scenario has
`sum(extend_seq_lens) = len(positions) = len(input_ids) = 9`. -/
theorem extend_length_consistency_witness :
    ∃ r pos el,
      InputMetadata.from_schedule_batch wExtendBatch = Except.ok r ∧
      r.positions = some pos ∧ r.extend_seq_lens = some el ∧
      el.sum = pos.length ∧ pos.length = wExtendBatch.input_ids.length :=
  extend_length_consistency wExtendBatch (Or.inl rfl) (by decide) (by decide) (by decide)
    (by decide) (by decide)

end ForwardBatchInfo

namespace ForwardBatchInfo

/-- A DECODE-mode descriptor that nevertheless carries populated extend-only
bookkeeping (`prefix_lens_cpu`, `extend_lens_cpu`): the mode/field mismatch
of C5. -/
def cDecodeExtendBatch : ScheduleBatch :=
  { forward_mode := ForwardMode.DECODE
    reqs := [ { fill_ids := [1, 2, 3], image_inputs := none, lora_path := none } ]
    input_ids := [3]
    req_pool_indices := [0]
    seq_lens := [3]
    out_cache_loc := [2]
    return_logprob := false
    top_logprobs_nums := none
    prefix_lens_cpu := [1]
    extend_lens_cpu := [2]
    extend_logprob_start_lens_cpu := [0] }

/-- C5 counterexample: a DECODE-mode descriptor with extend-only fields
supplied is assembled without any error — no ConfigurationError is raised
(none exists in the code), refuting the claim that such a mismatch fails. -/
theorem decode_with_extend_fields_no_error :
    cDecodeExtendBatch.extend_lens_cpu ≠ [] ∧
    cDecodeExtendBatch.prefix_lens_cpu ≠ [] ∧
    ∃ r, InputMetadata.from_schedule_batch cDecodeExtendBatch = Except.ok r := by
  refine ⟨by decide, by decide, ⟨_, rfl⟩⟩

/-- C5 (amended): assembly performs no mode/field validation; under DECODE
mode any supplied extend-only fields are silently ignored and assembly
succeeds, returning a record whose extend-only fields are all unset. -/
theorem decode_ignores_extend_fields (b : ScheduleBatch)
    (hmode : b.forward_mode = ForwardMode.DECODE) :
    ∃ r, InputMetadata.from_schedule_batch b = Except.ok r ∧
      r.extend_seq_lens = none ∧ r.extend_prefix_lens = none ∧
      r.extend_start_loc = none ∧ r.extend_seq_lens_cpu = none ∧
      r.extend_logprob_start_lens_cpu = none ∧ r.image_inputs = none :=
  ⟨_, fsb_decode_ok b hmode, rfl, rfl, rfl, rfl, rfl, rfl⟩

/-- C5 witness: the mismatched DECODE descriptor assembles into a record with
every extend-only field unset. -/
theorem decode_ignores_extend_fields_witness :
    ∃ r, InputMetadata.from_schedule_batch cDecodeExtendBatch = Except.ok r ∧
      r.extend_seq_lens = none ∧ r.extend_prefix_lens = none ∧
      r.extend_start_loc = none ∧ r.extend_seq_lens_cpu = none ∧
      r.extend_logprob_start_lens_cpu = none ∧ r.image_inputs = none :=
  decode_ignores_extend_fields cDecodeExtendBatch rfl

/-- An EXTEND-mode descriptor whose per-request arrays have mismatched
lengths: one request but two `extend_lens_cpu` entries and an empty
`out_cache_loc`. -/
def cMismatchBatch : ScheduleBatch :=
  { forward_mode := ForwardMode.EXTEND
    reqs := [ { fill_ids := [1, 2, 3], image_inputs := none, lora_path := none } ]
    input_ids := [1, 2, 3]
    req_pool_indices := [0]
    seq_lens := [3]
    out_cache_loc := []
    return_logprob := false
    top_logprobs_nums := none
    prefix_lens_cpu := [0]
    extend_lens_cpu := [3, 99]
    extend_logprob_start_lens_cpu := [0] }

/-- C6 counterexample: a batch whose per-request arrays do not all have
`batch_size` entries is assembled without any error — no InvalidBatch error
exists in the code and the mismatch is not detected. -/
theorem mismatched_lengths_no_error :
    cMismatchBatch.extend_lens_cpu.length ≠ cMismatchBatch.batch_size ∧
    cMismatchBatch.out_cache_loc.length ≠ cMismatchBatch.batch_size ∧
    ∃ r, InputMetadata.from_schedule_batch cMismatchBatch = Except.ok r := by
  refine ⟨by decide, by decide, ⟨_, rfl⟩⟩

/-- C6 (amended): assembly defines no InvalidBatch error and performs no
explicit validation; the only failures are incidental: an empty
extend-bearing batch fails with the generic `np.concatenate` ValueError, and
a `prefix_lens_cpu` shorter than the request list fails with a generic
IndexError. Other length mismatches are not detected. -/
theorem no_invalid_batch_error (b : ScheduleBatch)
    (hmode : b.forward_mode.is_decode = false) :
    (b.reqs = [] → InputMetadata.from_schedule_batch b = Except.error PyError.valueError) ∧
    (b.prefix_lens_cpu.length < b.reqs.length →
      InputMetadata.from_schedule_batch b = Except.error PyError.indexError) := by
  constructor
  · intro hr
    simp [InputMetadata.from_schedule_batch, hmode, hr, arangeRows, npConcatenate]
  · intro hlen
    have hne : b.reqs ≠ [] := by
      intro h
      rw [h] at hlen
      simp at hlen
    have herr := arangeRows_err b.reqs b.prefix_lens_cpu 0 (by omega) hne
    simp [InputMetadata.from_schedule_batch, hmode, herr]

/-- An empty EXTEND-mode batch. -/
def cEmptyExtendBatch : ScheduleBatch :=
  { forward_mode := ForwardMode.EXTEND
    reqs := []
    input_ids := []
    req_pool_indices := []
    seq_lens := []
    out_cache_loc := []
    return_logprob := false
    top_logprobs_nums := none
    prefix_lens_cpu := []
    extend_lens_cpu := []
    extend_logprob_start_lens_cpu := [] }

/-- An EXTEND-mode batch whose `prefix_lens_cpu` is shorter than its request
list. -/
def cShortPlensBatch : ScheduleBatch :=
  { forward_mode := ForwardMode.EXTEND
    reqs :=
      [ { fill_ids := [1, 2], image_inputs := none, lora_path := none }
      , { fill_ids := [3], image_inputs := none, lora_path := none } ]
    input_ids := [1, 2, 3]
    req_pool_indices := [0, 1]
    seq_lens := [2, 1]
    out_cache_loc := [0, 1, 2]
    return_logprob := false
    top_logprobs_nums := none
    prefix_lens_cpu := [0]
    extend_lens_cpu := [2, 1]
    extend_logprob_start_lens_cpu := [0, 0] }

/-- C6 witness: the two incidental failures observed at concrete inputs. -/
theorem no_invalid_batch_error_witness :
    InputMetadata.from_schedule_batch cEmptyExtendBatch = Except.error PyError.valueError ∧
    InputMetadata.from_schedule_batch cShortPlensBatch = Except.error PyError.indexError :=
  ⟨(no_invalid_batch_error cEmptyExtendBatch rfl).1 rfl,
   (no_invalid_batch_error cShortPlensBatch rfl).2 (by decide)⟩

/-- C7: the four predicates hold exactly of the tags the spec names, the
`IntEnum` values of the four tags round-trip through construction, and
construction from any value that is not the value of one of the four tags
fails. -/
theorem forward_mode_predicates :
    (∀ m : ForwardMode,
      (m.is_extend = true ↔ (m = ForwardMode.EXTEND ∨ m = ForwardMode.MIXED)) ∧
      (m.is_decode = true ↔ m = ForwardMode.DECODE) ∧
      (m.is_prefill = true ↔ m = ForwardMode.PREFILL) ∧
      (m.is_mixed = true ↔ m = ForwardMode.MIXED)) ∧
    (∀ m : ForwardMode, ForwardMode.ofValue m.value = some m) ∧
    (∀ n : Nat, ForwardMode.ofValue n = none ↔ ∀ m : ForwardMode, m.value ≠ n) := by
  refine ⟨?_, ?_, ?_⟩
  · intro m
    cases m <;> decide
  · intro m
    cases m <;> rfl
  · intro n
    constructor
    · intro h m hv
      subst hv
      cases m <;> simp [ForwardMode.ofValue, ForwardMode.value] at h
    · intro h
      rcases n with _ | _ | _ | _ | _ | k
      · rfl
      · exact absurd rfl (h ForwardMode.PREFILL)
      · exact absurd rfl (h ForwardMode.EXTEND)
      · exact absurd rfl (h ForwardMode.DECODE)
      · exact absurd rfl (h ForwardMode.MIXED)
      · rfl

end ForwardBatchInfo

namespace ForwardBatchInfo

/-- C8: a PREFILL-mode descriptor assembles exactly as the otherwise
identical EXTEND-mode descriptor — the same branch is taken and the results
agree in every field except the `forward_mode` tag itself (here normalised
to EXTEND on the left before comparing). -/
theorem prefill_behaves_as_extend (b : ScheduleBatch) :
    (InputMetadata.from_schedule_batch { b with forward_mode := ForwardMode.PREFILL }).map
      (fun r => { r with forward_mode := ForwardMode.EXTEND }) =
    InputMetadata.from_schedule_batch { b with forward_mode := ForwardMode.EXTEND } := by
  unfold InputMetadata.from_schedule_batch
  have hp : ForwardMode.PREFILL.is_decode = false := rfl
  have he : ForwardMode.EXTEND.is_decode = false := rfl
  cases h1 : arangeRows b.prefix_lens_cpu b.reqs 0 with
  | error e => simp [h1, hp, he, Except.map]
  | ok rows =>
    cases h2 : npConcatenate rows with
    | error e => simp [h1, h2, hp, he, Except.map]
    | ok pos => simp [h1, h2, hp, he, Except.map, ScheduleBatch.batch_size]

/-- C9: the assembler is pure — threading the descriptor through every
statement returns it unchanged (no mutation of the caller's batch), the
result agrees with the functional assembler (determinism), and re-assembling
from the descriptor left by a first assembly yields the identical record
(idempotence). -/
theorem assembler_deterministic_no_mutation (b : ScheduleBatch) :
    from_schedule_batch_run b = (InputMetadata.from_schedule_batch b, b) ∧
    (from_schedule_batch_run ((from_schedule_batch_run b).2)).1 =
      (from_schedule_batch_run b).1 := by
  have h : from_schedule_batch_run b = (InputMetadata.from_schedule_batch b, b) := by
    unfold from_schedule_batch_run InputMetadata.from_schedule_batch
    by_cases hd : b.forward_mode.is_decode = true
    · simp [hd]
    · simp only [Bool.not_eq_true] at hd
      cases h1 : arangeRows b.prefix_lens_cpu b.reqs 0 with
      | error e => simp [hd, h1]
      | ok rows =>
        cases h2 : npConcatenate rows with
        | error e => simp [hd, h1, h2]
        | ok pos => simp [hd, h1, h2]
  refine ⟨h, ?_⟩
  simp [h]

/-- C10: whenever assembly succeeds, `return_logprob`, `top_logprobs_nums`
and `lora_paths` are copied from the descriptor regardless of mode, while on
a DECODE pass the host-resident logprob mirrors `extend_seq_lens_cpu` and
`extend_logprob_start_lens_cpu`, and `image_inputs`, remain unset even when
`return_logprob` is true. -/
theorem logprob_mirror_fields_by_mode (b : ScheduleBatch) (r : InputMetadata)
    (h : InputMetadata.from_schedule_batch b = Except.ok r) :
    (b.forward_mode = ForwardMode.DECODE →
      r.extend_seq_lens_cpu = none ∧ r.extend_logprob_start_lens_cpu = none ∧
      r.image_inputs = none) ∧
    r.return_logprob = b.return_logprob ∧
    r.top_logprobs_nums = b.top_logprobs_nums ∧
    r.lora_paths = some (b.reqs.map Req.lora_path) := by
  by_cases hm : b.forward_mode = ForwardMode.DECODE
  · rw [fsb_decode_ok b hm] at h
    injection h with h'
    subst h'
    exact ⟨fun _ => ⟨rfl, rfl, rfl⟩, rfl, rfl, rfl⟩
  · have hd : b.forward_mode.is_decode = false := beq_eq_false_iff_ne.mpr hm
    unfold InputMetadata.from_schedule_batch at h
    simp only [hd, Bool.false_eq_true, if_false] at h
    split at h
    · exact absurd h (by simp)
    · split at h
      · exact absurd h (by simp)
      · injection h with h'
        subst h'
        exact ⟨fun hdm => absurd hdm hm, rfl, rfl, rfl⟩

/-- C10 witness: the decode scenario with `return_logprob = true` leaves the
logprob mirrors and `image_inputs` unset while copying the logprob flag,
top-k counts and LoRA paths. -/
theorem logprob_mirror_fields_witness :
    ∃ r, InputMetadata.from_schedule_batch wDecodeBatch = Except.ok r ∧
      r.extend_seq_lens_cpu = none ∧ r.extend_logprob_start_lens_cpu = none ∧
      r.image_inputs = none ∧ r.return_logprob = true ∧
      r.top_logprobs_nums = some [1, 2] ∧ r.lora_paths = some [none, some 7] := by
  obtain ⟨hdec, hrl, htop, hlora⟩ := logprob_mirror_fields_by_mode wDecodeBatch _ rfl
  obtain ⟨h1, h2, h3⟩ := hdec rfl
  exact ⟨_, rfl, h1, h2, h3, hrl.trans rfl, htop.trans rfl, hlora.trans rfl⟩

end ForwardBatchInfo

namespace ForwardBatchInfo

/-- C8 witness: instantiation at the concrete extend scenario. -/
theorem prefill_behaves_as_extend_witness :
    (InputMetadata.from_schedule_batch
        { wExtendBatch with forward_mode := ForwardMode.PREFILL }).map
      (fun r => { r with forward_mode := ForwardMode.EXTEND }) =
    InputMetadata.from_schedule_batch
      { wExtendBatch with forward_mode := ForwardMode.EXTEND } :=
  prefill_behaves_as_extend wExtendBatch

/-- C9 witness: instantiation at the concrete extend scenario. -/
theorem assembler_deterministic_no_mutation_witness :
    from_schedule_batch_run wExtendBatch =
      (InputMetadata.from_schedule_batch wExtendBatch, wExtendBatch) ∧
    (from_schedule_batch_run ((from_schedule_batch_run wExtendBatch).2)).1 =
      (from_schedule_batch_run wExtendBatch).1 :=
  assembler_deterministic_no_mutation wExtendBatch

end ForwardBatchInfo
